import Mathlib

/-!
Shallow embedding of `src/video_subtitle_extractor.py` (video-subtitle-extractor).

Conventions of the embedding:
* Python `float` values that the program manipulates exactly (frame counts,
  confidence scores, time arithmetic) are modelled as exact rationals `ℚ`;
  Python `int` as `ℤ`.
* Python exceptions are modelled with `Except String` / `Option`.
* The external fuzzy-matching collaborator `fuzz.ratio` (library `fuzzywuzzy`,
  not part of this repository) is a parameter `ratio : String → String → ℤ`
  of the consolidation functions; the source only compares its 0–100 integer
  result against the threshold.
* Python list/dict/string operations are re-implemented structurally so that
  concrete runs reduce inside the kernel.
-/

/-- Embedding of the frozen dataclass `Subtitle` (which extends `OcrResult`
with `frame_idx`): a polygon `box`, the recognised `text`, the OCR confidence
`score` and the 0-based index of the frame the detection came from. -/
structure Subtitle where
  box : List (List ℤ)
  text : String
  score : ℚ
  frame_idx : ℤ
deriving DecidableEq, Repr

/-- Stable insertion of an integer into an already sorted list, placing the
new element after existing equal ones (the insertion step of a stable
ascending sort, as Python's `sorted` produces for integer keys). -/
def insertSorted (x : ℤ) : List ℤ → List ℤ
  | [] => [x]
  | y :: ys => if x < y then x :: y :: ys else y :: insertSorted x ys

/-- Model of Python `sorted` on a list of integers: ascending, stable. -/
def pySorted (l : List ℤ) : List ℤ :=
  l.foldl (fun acc x => insertSorted x acc) []

/-- Model of Python `sep.join(strs)`: empty string on the empty list,
otherwise the strings interleaved with the separator. -/
def joinStrings (sep : String) : List String → String
  | [] => ""
  | [s] => s
  | s :: rest => s ++ sep ++ joinStrings sep rest

/-- `' '.join([sub.text for sub in subs])` as used by `subtitles_similar`
and `_to_formatter`. -/
def joinTexts (subs : List Subtitle) : String :=
  joinStrings " " (subs.map (fun s => s.text))

/-- Embedding of `SubtitleOption.order_by_frame` (lines 126-142).  The source
builds `sub_dict` mapping each `frame_idx` to the list of its detections in
input order, appends EVERY detection's `frame_idx` to `keys` (also when the
key is already present), and then emits `sub_dict[key]` for each entry of
`sorted(keys)`.  The dict bucket for key `k` is exactly the sublist of
detections with `frame_idx = k` in input order, i.e. a filter. -/
def order_by_frame (subtitles : List Subtitle) : List (List Subtitle) :=
  let keys := subtitles.map (fun s => s.frame_idx)
  (pySorted keys).map (fun k => subtitles.filter (fun s => s.frame_idx == k))

/-- Embedding of `SubtitleOption.calc_avg_score` (lines 172-178): sum of the
per-detection scores divided by the number of detections.  (On an empty group
the source raises `ZeroDivisionError`; the embedding returns `0`, a case no
caller reaches since groups produced by grouping are non-empty.) -/
def calc_avg_score (subs : List Subtitle) : ℚ :=
  (subs.map (fun s => s.score)).sum / (subs.length : ℚ)

/-- Embedding of `SubtitleOption.choose_better` (lines 180-185):
`subs1 if s1 > s2 else subs2` on the average scores. -/
def choose_better (subs1 subs2 : List Subtitle) : List Subtitle :=
  if calc_avg_score subs1 > calc_avg_score subs2 then subs1 else subs2

/-- Embedding of `SubtitleOption.subtitles_similar` (lines 187-192),
parameterised by the external `fuzz.ratio` collaborator:
`fuzz.ratio(text1, text2) >= cls.threshold` on the space-joined texts. -/
def subtitles_similar (ratio : String → String → ℤ) (threshold : ℤ)
    (subs1 subs2 : List Subtitle) : Bool :=
  threshold ≤ ratio (joinTexts subs1) (joinTexts subs2)

/-- The loop of `SubtitleOption.removed_similar` (lines 144-152), with the
result list represented as the already fixed groups `earlier` (reversed) plus
the current last kept entry `last` (`res[-1]`).  For each incoming bucket:
if it is not similar to the last kept entry it is appended, otherwise the
last kept entry is replaced by `choose_better(incoming, kept)`. -/
def removed_similar_go (ratio : String → String → ℤ) (threshold : ℤ)
    (earlier : List (List Subtitle)) (last : List Subtitle) :
    List (List Subtitle) → List (List Subtitle)
  | [] => (last :: earlier).reverse
  | subs :: rest =>
    if subtitles_similar ratio threshold subs last then
      removed_similar_go ratio threshold earlier (choose_better subs last) rest
    else
      removed_similar_go ratio threshold (last :: earlier) subs rest

/-- Embedding of `SubtitleOption.removed_similar` (lines 144-152).  The
source starts with `res = [sub_order_by_frame[0]]`, which raises `IndexError`
on an empty input: that failure case is modelled as `none`. -/
def removed_similar (ratio : String → String → ℤ) (threshold : ℤ) :
    List (List Subtitle) → Option (List (List Subtitle))
  | [] => none
  | g :: gs => some (removed_similar_go ratio threshold [] g gs)

/-- Embedding of `SubtitleOption.clean` (lines 154-160): empty input yields
the empty group list, otherwise grouping followed by the similarity
collapse.  (`order_by_frame` of a non-empty input is non-empty, so the
`none` branch of `removed_similar` is unreachable here.) -/
def clean (ratio : String → String → ℤ) (threshold : ℤ)
    (subtitles : List Subtitle) : Option (List (List Subtitle)) :=
  if subtitles = [] then some []
  else removed_similar ratio threshold (order_by_frame subtitles)

/-- Embedding of the frozen dataclass `SubtitleFormatter`: one output cue.
The `timedelta` fields are modelled by their exact total seconds in `ℚ`. -/
structure SubtitleFormatter where
  content : String
  start_time : ℚ
  end_time : ℚ
deriving DecidableEq, Repr

/-- Computable floor of a rational (`⌊q⌋`), via integer division of the
numerator by the (positive) denominator. -/
def floorQ (q : ℚ) : ℤ := q.num / (q.den : ℤ)

/-- Model of Python `int(x)` on a real value: truncation toward zero. -/
def truncQ (q : ℚ) : ℤ := if 0 ≤ q then floorQ q else -floorQ (-q)

/-- Model of Python `'{:02d}'.format(n)`: decimal representation of `n`
zero-padded on the left to (at least) two characters. -/
def pad2 (n : ℤ) : String :=
  if 0 ≤ n ∧ n < 10 then "0" ++ toString n else toString n

/-- Embedding of `SubtitleFormatter._time_formatter` (lines 201-208):
`minutes, seconds = divmod(total_seconds, 60)` (floor division and the
corresponding non-negative remainder), then `int()` of the pieces, the
centisecond field being `int((seconds - int(seconds)) * 100)`, each rendered
with `'{:02d}'`. -/
def time_formatter (t : ℚ) : String :=
  let minutes : ℤ := floorQ (t / 60)
  let seconds : ℚ := t - 60 * (minutes : ℚ)
  let s : ℤ := truncQ seconds
  let ms : ℤ := truncQ ((seconds - (s : ℚ)) * 100)
  pad2 minutes ++ ":" ++ pad2 s ++ "." ++ pad2 ms

/-- Embedding of the `SubtitleFormatter.lrc` property (lines 210-214):
`f'[{start}]{content}\n[{end}]'`. -/
def lrc (f : SubtitleFormatter) : String :=
  "[" ++ time_formatter f.start_time ++ "]" ++ f.content ++ "\n[" ++
    time_formatter f.end_time ++ "]"

/-- Embedding of the content built by `Video.save_subtitle_by_formatter`
(lines 400-404) for `file_type='lrc'`: `'\n'.join` of the per-cue `lrc`
renderings (the file-writing side effect is outside the model). -/
def lrc_file_content (formatters : List SubtitleFormatter) : String :=
  joinStrings "\n" (formatters.map lrc)

/-- Model of Python `str.split(sep)` for a single-character separator, on
the character list of the string: splits at every occurrence, keeping empty
pieces.  `acc` holds the characters of the current piece, reversed. -/
def splitOnCharAux (sep : Char) : List Char → List Char → List (List Char)
  | [], acc => [acc.reverse]
  | c :: cs, acc =>
    if c = sep then acc.reverse :: splitOnCharAux sep cs []
    else splitOnCharAux sep cs (c :: acc)

/-- Model of Python `str.split(sep)` for a single-character separator. -/
def splitOnChar (sep : Char) (l : List Char) : List (List Char) :=
  splitOnCharAux sep l []

/-- Numeric value of a list of decimal digit characters (Python's decimal
reading of a digit run; `0` on the empty list). -/
def decDigitsVal (l : List Char) : ℕ :=
  l.foldl (fun a c => 10 * a + (c.toNat - 48)) 0

/-- Model of Python `float(s)` restricted to the unsigned decimal literals
the time fields of this program use (`"03"`, `"3.5"`, `"3."`, `".5"`): an
optional single dot with all-digit parts, at least one digit overall;
anything else is `none` (Python raises `ValueError`).  The value is exact
(the source's binary floating point agrees with the exact rational on every
input appearing in this development). -/
def parseFloat? (l : List Char) : Option ℚ :=
  match splitOnChar '.' l with
  | [ip] =>
    if ip ≠ [] ∧ ip.all Char.isDigit then some (decDigitsVal ip : ℚ) else none
  | [ip, fp] =>
    if (ip ≠ [] ∨ fp ≠ []) ∧ ip.all Char.isDigit ∧ fp.all Char.isDigit then
      some ((decDigitsVal ip : ℚ) + (decDigitsVal fp : ℚ) / (10 : ℚ) ^ fp.length)
    else none
  | _ => none

/-- The comprehension `[float(i) for i in time_str.split(':')]`: parses the
fields left to right, failing at the first non-numeric field. -/
def parseFloatFields : List (List Char) → Option (List ℚ)
  | [] => some []
  | f :: rest =>
    match parseFloat? f with
    | none => none
    | some v => (parseFloatFields rest).map (fun r => v :: r)

/-- Embedding of `convert_time_to_frame_idx` (lines 87-99): empty string
maps to frame `0`; otherwise the colon-separated fields are parsed as
floats, a 3-field string is taken as hours:minutes:seconds and a 2-field
string as minutes:seconds (`timedelta.total_seconds()` is
`3600*h + 60*m + s`), any other field count raises `ValueError`; the result
is `int(total_seconds * fps)` (truncation toward zero). -/
def convert_time_to_frame_idx (time_str : String) (fps : ℤ) : Except String ℤ :=
  if time_str = "" then .ok 0
  else
    match parseFloatFields (splitOnChar ':' time_str.toList) with
    | none => .error "could not convert string to float"
    | some [h, m, s] => .ok (truncQ ((3600 * h + 60 * m + s) * (fps : ℚ)))
    | some [m, s] => .ok (truncQ ((60 * m + s) * (fps : ℚ)))
    | some _ => .error "Time data does not match format H:M:S"

/-- The step-size computation of `Video.time_to_frame_idxes` (line 250):
`step = 1 if not capture_interval else int(capture_interval * self.fps)` —
`1` for a zero/unset interval, otherwise `interval * fps` truncated toward
zero by `int()` (no rounding and no lower clamp). -/
def frameStep (capture_interval : ℚ) (fps : ℤ) : ℤ :=
  if capture_interval = 0 then 1 else truncQ (capture_interval * (fps : ℚ))

/-- First `frame_idx` of a group, `0` for an empty group (the source would
raise `IndexError` before ever using this default). -/
def headFrameIdx (g : List Subtitle) : ℤ :=
  (g.head?.map (fun s => s.frame_idx)).getD 0

/-- The comprehension `[subs[0].frame_idx for subs in subtitles]` of
`_to_formatter` (line 491): the first detection's `frame_idx` of every
group, raising `IndexError` (modelled as `none`) on an empty group. -/
def firstIdxes : List (List Subtitle) → Option (List ℤ)
  | [] => some []
  | g :: gs =>
    match g.head? with
    | none => none
    | some s => (firstIdxes gs).map (fun r => s.frame_idx :: r)

/-- The loop body of `SubtitleExtractor._to_formatter` (lines 499-508) for a
group `g` whose first frame index is `fcur` and whose successor boundary in
`frame_idxes` is `fnext`: `alive = fnext - fcur`,
`start = first.frame_idx / origin_fps`,
`end = min(start + max_show, (first.frame_idx + alive) / origin_fps)`,
content the space-joined texts of the group. -/
def mkFormatter (origin_fps : ℚ) (max_show : ℤ) (g : List Subtitle)
    (fcur fnext : ℤ) : SubtitleFormatter :=
  let alive : ℤ := fnext - fcur
  let start_second : ℚ := ((headFrameIdx g : ℤ) : ℚ) / origin_fps
  { content := joinTexts g
    start_time := start_second
    end_time := min (start_second + (max_show : ℚ))
      (((headFrameIdx g + alive : ℤ) : ℚ) / origin_fps) }

/-- Embedding of `SubtitleExtractor._to_formatter` (lines 485-509): raises
on an empty group list (`AttributeError('len(subtitles) == 0')`) and on any
empty group (the `frame_idxes` comprehension's `IndexError`); otherwise each
group is paired with its own first frame index and the next entry of
`frame_idxes = idxs ++ [idxs[-1] + max_show * fps]` and turned into a cue by
`mkFormatter`.  (The source's `if not subtitles[frame_idx]: continue` guard
is unreachable: the comprehension has already raised on an empty group.) -/
def to_formatter (fps : ℤ) (origin_fps : ℚ) (max_show : ℤ)
    (subtitles : List (List Subtitle)) : Except String (List SubtitleFormatter) :=
  if subtitles = [] then .error "len(subtitles) == 0"
  else
    match firstIdxes subtitles with
    | none => .error "IndexError: list index out of range"
    | some idxs =>
      let last_sub_alive := max_show * fps
      let bounds := idxs.tail ++ [idxs.getLastD 0 + last_sub_alive]
      .ok ((subtitles.zip (idxs.zip bounds)).map
        (fun gp => mkFormatter origin_fps max_show gp.1 gp.2.1 gp.2.2))

/-- Written from the specification's timing formula (§4.4), for comparison
with `to_formatter`: cue `i` gets `start_i = f_i / origin_fps` and
`end_i = min(start_i + max_show_seconds, f_{i+1} / origin_fps)` where
`f_i` is the frame index of group `i` and the synthetic final boundary is
`f_{N-1} + max_show_seconds * fps`; content is the space-joined text. -/
def specCue (origin_fps : ℚ) (max_show : ℤ) (g : List Subtitle)
    (fcur fnext : ℤ) : SubtitleFormatter :=
  { content := joinTexts g
    start_time := ((fcur : ℤ) : ℚ) / origin_fps
    end_time := min (((fcur : ℤ) : ℚ) / origin_fps + (max_show : ℚ))
      (((fnext : ℤ) : ℚ) / origin_fps) }

/-- Written from the specification's words (§4.4): walk the consolidated
groups, each cue bounded by the next group's frame index, the last by the
synthetic boundary `f_{N-1} + max_show_seconds * fps`. -/
def specTimedCues (fps : ℤ) (origin_fps : ℚ) (max_show : ℤ) :
    List (List Subtitle) → List SubtitleFormatter
  | [] => []
  | [g] => [specCue origin_fps max_show g (headFrameIdx g)
      (headFrameIdx g + max_show * fps)]
  | g :: g2 :: gs =>
    specCue origin_fps max_show g (headFrameIdx g) (headFrameIdx g2) ::
      specTimedCues fps origin_fps max_show (g2 :: gs)

/-- The characters deleted by the translation table built in
`SubtitleExtractor.__init__` (line 449): the third argument of
`str.maketrans('|', 'I', ...)`, i.e. the ASCII codes of
less-than, greater-than, both braces, both square brackets, semicolon,
backquote, at, hash, dollar, percent, caret, asterisk, underscore, equals,
tilde and backslash. -/
def deleteChars : List Char :=
  [60, 62, 123, 125, 91, 93, 59, 96, 64, 35, 36, 37, 94, 42, 95, 61, 126, 92].map Char.ofNat

/-- The per-character action of the translation table: characters of the
deletion set are removed, `'|'` becomes `'I'`, everything else is kept. -/
def translateTable (c : Char) : Option Char :=
  if c ∈ deleteChars then none
  else if c = '|' then some 'I' else some c

/-- Model of `text.translate(self.table)` (line 460). -/
def pyTranslate (s : String) : String :=
  ⟨s.toList.filterMap translateTable⟩

/-- The list-level strip: drop whitespace from the front, then from the
back (via reversal). -/
def stripList (l : List Char) : List Char :=
  ((l.dropWhile Char.isWhitespace).reverse.dropWhile Char.isWhitespace).reverse

/-- Model of Python `str.strip()` (line 460): remove leading and trailing
whitespace.  (`Char.isWhitespace` stands in for Python's whitespace class;
the two agree on ASCII text apart from `\x0b`/`\x0c`.) -/
def pyStrip (s : String) : String :=
  ⟨stripList s.toList⟩

/-- The text cleanup applied by `SubtitleExtractor.ocr` to every raw OCR
string (line 460): `res[1][0].translate(self.table).strip()`. -/
def cleanOcrText (s : String) : String :=
  pyStrip (pyTranslate s)

/-- Embedding of the detection-building comprehension of
`SubtitleExtractor.ocr` (lines 456-465): each raw OCR result
`(box, (text, score))` becomes a `Subtitle` with the cleaned text and the
frame's index.  The OCR engine itself is external; its output list is the
parameter. -/
def ocrSubtitles (frame_idx : ℤ) (raw : List (List (List ℤ) × String × ℚ)) :
    List Subtitle :=
  raw.map (fun r =>
    { box := r.1
      text := cleanOcrText r.2.1
      score := r.2.2
      frame_idx := frame_idx })

/-- A minimal stand-in for the external `fuzz.ratio` adequate for concrete
runs in this development: `100` on equal strings, `0` on different ones
(`fuzz.ratio` is `100` exactly on equal strings). -/
def sameTextRatio (a b : String) : ℤ :=
  if a = b then 100 else 0

/-! ## Basic lemmas about the rational helpers -/

theorem floorQ_eq (q : ℚ) : floorQ q = ⌊q⌋ := Rat.floor_def.symm

theorem truncQ_of_nonneg {q : ℚ} (h : 0 ≤ q) : truncQ q = ⌊q⌋ := by
  simp [truncQ, h, floorQ_eq]

/-! ## C1 -/

/-- Claim C1 (refuted by the code; the grouping intent is clear from the
spec and the dict-based implementation, so this is a slip in the source):
`order_by_frame` appends every detection's `frame_idx` to `keys`, including
repeats, so `sorted(keys)` contains duplicates and the same bucket is
emitted once per detection carrying that `frame_idx`.  On two detections
sharing frame `0` the output contains the frame-0 bucket twice — two buckets
of the output share a `frame_idx`, contradicting the claim that each
distinct `frame_idx` yields exactly one bucket. -/
theorem order_by_frame_emits_duplicate_buckets :
    order_by_frame [⟨[], "a", 1, 0⟩, ⟨[], "b", 1, 0⟩] =
      [[⟨[], "a", 1, 0⟩, ⟨[], "b", 1, 0⟩], [⟨[], "a", 1, 0⟩, ⟨[], "b", 1, 0⟩]] ∧
    order_by_frame [⟨[], "a", 1, 0⟩, ⟨[], "b", 1, 0⟩] ≠
      [[⟨[], "a", 1, 0⟩, ⟨[], "b", 1, 0⟩]] := by
  constructor <;> decide

/-! ## C7 -/

/-- Claim C7: consolidating an empty detection stream yields the empty
consolidated sequence, and formatting an empty consolidated sequence is
the distinct `NoSubtitlesFound` failure (`AttributeError('len(subtitles)
== 0')` in the source), not an empty cue list. -/
theorem clean_empty_formatter_error (ratio : String → String → ℤ)
    (threshold fps max_show : ℤ) (origin_fps : ℚ) :
    clean ratio threshold [] = some [] ∧
    to_formatter fps origin_fps max_show [] =
      .error "len(subtitles) == 0" := by
  exact ⟨rfl, rfl⟩

/-! ## C5 -/

/-- Claim C5: two frame-groups are similar exactly when the similarity
ratio of their space-joined texts is at least the threshold; in particular
a score equal to the threshold is similar and a score of `threshold - 1`
is not. -/
theorem subtitles_similar_iff_threshold (ratio : String → String → ℤ)
    (threshold : ℤ) (g1 g2 : List Subtitle) :
    (subtitles_similar ratio threshold g1 g2 = true ↔
      threshold ≤ ratio (joinTexts g1) (joinTexts g2)) ∧
    (ratio (joinTexts g1) (joinTexts g2) = threshold →
      subtitles_similar ratio threshold g1 g2 = true) ∧
    (ratio (joinTexts g1) (joinTexts g2) = threshold - 1 →
      subtitles_similar ratio threshold g1 g2 = false) := by
  refine ⟨by simp [subtitles_similar], ?_, ?_⟩ <;>
    intro h <;> simp [subtitles_similar, h]

/-- Concrete run of `subtitles_similar_iff_threshold`: with the equal texts
scoring `100`, threshold `100` collapses and threshold `101` does not. -/
theorem subtitles_similar_iff_threshold_witness :
    subtitles_similar sameTextRatio 100 [⟨[], "x", 1, 0⟩] [⟨[], "x", 1, 0⟩] = true ∧
    subtitles_similar sameTextRatio 101 [⟨[], "x", 1, 0⟩] [⟨[], "x", 1, 0⟩] = false := by
  constructor
  · exact (subtitles_similar_iff_threshold sameTextRatio 100
      [⟨[], "x", 1, 0⟩] [⟨[], "x", 1, 0⟩]).2.1 (by decide)
  · exact (subtitles_similar_iff_threshold sameTextRatio 101
      [⟨[], "x", 1, 0⟩] [⟨[], "x", 1, 0⟩]).2.2 (by decide)

/-! ## C4 -/

/-- Counterexample to claim C4 as stated: for `capture_interval = 1/2` and
`fps = 1` the interval is non-zero, yet the step the source computes is
`int(0.5) = 0`, not `round(interval * fps)` clamped to a minimum of `1` —
the step IS less than 1 (and `range(start, stop, 0)` then raises
`ValueError`). -/
theorem frameStep_can_be_zero :
    ((1 : ℚ) / 2 ≠ 0) ∧ frameStep (1 / 2) 1 = 0 ∧ ¬ (1 ≤ frameStep (1 / 2) 1) := by
  have h0 : frameStep (1 / 2) 1 = 0 := by
    rw [frameStep, if_neg (by norm_num)]
    rw [truncQ_of_nonneg (by norm_num)]
    rw [Int.floor_eq_zero_iff.2 (by rw [Set.mem_Ico]; constructor <;> norm_num)]
  exact ⟨by norm_num, h0, by rw [h0]; omega⟩

/-- Claim C4 amended: the step is `1` when the interval is zero/unset, and
otherwise `int(interval * fps)` — truncation toward zero, with no lower
clamp; for a non-negative product the step reaches `1` exactly when
`interval * fps ≥ 1` (so the step can be `0` and the index sequence is then
not well defined). -/
theorem frameStep_truncates_unclamped (interval : ℚ) (fps : ℤ) :
    (interval = 0 → frameStep interval fps = 1) ∧
    (interval ≠ 0 → frameStep interval fps = truncQ (interval * (fps : ℚ))) ∧
    (0 ≤ interval * (fps : ℚ) →
      (1 ≤ frameStep interval fps ↔ interval = 0 ∨ 1 ≤ interval * (fps : ℚ))) := by
  refine ⟨fun h => by simp [frameStep, h], fun h => by simp [frameStep, h], fun hnn => ?_⟩
  by_cases h : interval = 0
  · simp [frameStep, h]
  · rw [frameStep, if_neg h, truncQ_of_nonneg hnn]
    constructor
    · intro hfl
      exact Or.inr (by exact_mod_cast Int.le_floor.1 hfl)
    · intro hor
      rcases hor with h0 | hge
      · exact absurd h0 h
      · exact Int.le_floor.2 (by exact_mod_cast hge)

/-- Concrete run of `frameStep_truncates_unclamped` at `interval = 3/2`,
`fps = 2`. -/
theorem frameStep_truncates_unclamped_witness :
    frameStep (3 / 2) 2 = truncQ ((3 / 2) * ((2 : ℤ) : ℚ)) ∧
    (1 ≤ frameStep (3 / 2) 2 ↔ (3 / 2 : ℚ) = 0 ∨ 1 ≤ (3 / 2 : ℚ) * ((2 : ℤ) : ℚ)) := by
  exact ⟨(frameStep_truncates_unclamped (3 / 2) 2).2.1 (by norm_num),
    (frameStep_truncates_unclamped (3 / 2) 2).2.2 (by norm_num)⟩

/-! ## C6 -/

/-- Counterexample to claim C6 as stated: two similar single-detection
buckets with the same score `5`, the kept one at frame `0`, the incoming one
at frame `1`.  In `removed_similar` the call is
`choose_better(incoming, kept)`, which returns its second argument on a
tie — so the KEPT bucket (frame 0) survives, and the incoming bucket does
NOT replace the kept entry as the claim states. -/
theorem removed_similar_tie_cex :
    subtitles_similar sameTextRatio 70 [⟨[], "hi", 5, 1⟩] [⟨[], "hi", 5, 0⟩] = true ∧
    calc_avg_score [⟨[], "hi", 5, 1⟩] = calc_avg_score [⟨[], "hi", 5, 0⟩] ∧
    removed_similar sameTextRatio 70 [[⟨[], "hi", 5, 0⟩], [⟨[], "hi", 5, 1⟩]] =
      some [[⟨[], "hi", 5, 0⟩]] ∧
    [[(⟨[], "hi", 5, 0⟩ : Subtitle)]] ≠ [[⟨[], "hi", 5, 1⟩]] := by
  have hsim : subtitles_similar sameTextRatio 70 [⟨[], "hi", 5, 1⟩] [⟨[], "hi", 5, 0⟩] = true := by
    decide
  have havg : calc_avg_score [(⟨[], "hi", 5, 1⟩ : Subtitle)] =
      calc_avg_score [⟨[], "hi", 5, 0⟩] := rfl
  have hcb : choose_better [(⟨[], "hi", 5, 1⟩ : Subtitle)] [⟨[], "hi", 5, 0⟩] =
      [⟨[], "hi", 5, 0⟩] := by
    rw [choose_better, if_neg (by rw [havg]; exact lt_irrefl _)]
  refine ⟨hsim, havg, ?_, by decide⟩
  rw [removed_similar, removed_similar_go, if_pos hsim, hcb, removed_similar_go]
  rfl

/-- Claim C6 amended: the average-score comparison in `choose_better` is
strict-greater-than, and on a tie the previously KEPT entry (the second
argument) survives; only a strictly higher incoming average replaces it. -/
theorem removed_similar_tie_keeps_existing (ratio : String → String → ℤ)
    (threshold : ℤ) (g1 g2 : List Subtitle)
    (hsim : subtitles_similar ratio threshold g2 g1 = true) :
    (calc_avg_score g2 ≤ calc_avg_score g1 →
      removed_similar ratio threshold [g1, g2] = some [g1]) ∧
    (calc_avg_score g1 < calc_avg_score g2 →
      removed_similar ratio threshold [g1, g2] = some [g2]) := by
  constructor
  · intro hle
    rw [removed_similar, removed_similar_go, if_pos hsim,
      choose_better, if_neg (not_lt.2 hle), removed_similar_go]
    rfl
  · intro hlt
    rw [removed_similar, removed_similar_go, if_pos hsim,
      choose_better, if_pos hlt, removed_similar_go]
    rfl

/-- Concrete run of `removed_similar_tie_keeps_existing`: equal averages
keep the first bucket, a strictly better incoming bucket replaces it. -/
theorem removed_similar_tie_keeps_existing_witness :
    removed_similar sameTextRatio 70 [[⟨[], "ok", 5, 0⟩], [⟨[], "ok", 5, 9⟩]] =
      some [[⟨[], "ok", 5, 0⟩]] ∧
    removed_similar sameTextRatio 70 [[⟨[], "ok", 5, 0⟩], [⟨[], "ok", 7, 9⟩]] =
      some [[⟨[], "ok", 7, 9⟩]] := by
  constructor
  · exact (removed_similar_tie_keeps_existing sameTextRatio 70
      [⟨[], "ok", 5, 0⟩] [⟨[], "ok", 5, 9⟩] (by decide)).1 (le_of_eq rfl)
  · refine (removed_similar_tie_keeps_existing sameTextRatio 70
      [⟨[], "ok", 5, 0⟩] [⟨[], "ok", 7, 9⟩] (by decide)).2 ?_
    show calc_avg_score _ < calc_avg_score _
    simp [calc_avg_score]
    norm_num

/-! ## C9 -/

/-- `choose_better` returns one of its two arguments. -/
theorem choose_better_mem (a b : List Subtitle) :
    choose_better a b = a ∨ choose_better a b = b := by
  unfold choose_better
  split
  · exact Or.inl rfl
  · exact Or.inr rfl

/-- The collapse loop never returns fewer than one group. -/
theorem removed_similar_go_length_pos (ratio : String → String → ℤ)
    (threshold : ℤ) :
    ∀ (rest earlier : List (List Subtitle)) (last : List Subtitle),
      1 ≤ (removed_similar_go ratio threshold earlier last rest).length := by
  intro rest
  induction rest with
  | nil =>
    intro earlier last
    simp [removed_similar_go]
  | cons subs rest ih =>
    intro earlier last
    rw [removed_similar_go]
    split
    · exact ih earlier (choose_better subs last)
    · exact ih (last :: earlier) subs

/-- The collapse loop emits at most one group per pending input group on
top of the groups already fixed. -/
theorem removed_similar_go_length_le (ratio : String → String → ℤ)
    (threshold : ℤ) :
    ∀ (rest earlier : List (List Subtitle)) (last : List Subtitle),
      (removed_similar_go ratio threshold earlier last rest).length ≤
        earlier.length + 1 + rest.length := by
  intro rest
  induction rest with
  | nil =>
    intro earlier last
    simp [removed_similar_go]
  | cons subs rest ih =>
    intro earlier last
    rw [removed_similar_go]
    split
    · have := ih earlier (choose_better subs last)
      simpa using Nat.le_succ_of_le this
    · have := ih (last :: earlier) subs
      simp only [List.length_cons] at this ⊢
      omega

/-- Every group the collapse loop returns is one of: an already fixed
group, the current kept entry, or a pending input group. -/
theorem removed_similar_go_mem (ratio : String → String → ℤ)
    (threshold : ℤ) :
    ∀ (rest earlier : List (List Subtitle)) (last : List Subtitle)
      (x : List Subtitle), x ∈ removed_similar_go ratio threshold earlier last rest →
      x ∈ earlier ∨ x = last ∨ x ∈ rest := by
  intro rest
  induction rest with
  | nil =>
    intro earlier last x hx
    simp [removed_similar_go] at hx
    tauto
  | cons subs rest ih =>
    intro earlier last x hx
    rw [removed_similar_go] at hx
    split at hx
    · rcases ih earlier (choose_better subs last) x hx with h | h | h
      · exact Or.inl h
      · rcases choose_better_mem subs last with hc | hc
        · rw [hc] at h
          exact Or.inr (Or.inr (by simp [h]))
        · rw [hc] at h
          exact Or.inr (Or.inl h)
      · exact Or.inr (Or.inr (List.mem_cons_of_mem _ h))
    · rcases ih (last :: earlier) subs x hx with h | h | h
      · rcases List.mem_cons.1 h with h | h
        · exact Or.inr (Or.inl h)
        · exact Or.inl h
      · exact Or.inr (Or.inr (by simp [h]))
      · exact Or.inr (Or.inr (List.mem_cons_of_mem _ h))

/-- Claim C9: on a non-empty group list the similarity collapse succeeds
and returns a non-empty result, no longer than its input, every entry of
which is one of the input groups (no new group is ever constructed). -/
theorem removed_similar_selects_among_input (ratio : String → String → ℤ)
    (threshold : ℤ) (groups : List (List Subtitle)) (h : groups ≠ []) :
    ∃ out, removed_similar ratio threshold groups = some out ∧ out ≠ [] ∧
      out.length ≤ groups.length ∧ ∀ x ∈ out, x ∈ groups := by
  match groups with
  | [] => exact absurd rfl h
  | g :: gs =>
    refine ⟨removed_similar_go ratio threshold [] g gs, rfl, ?_, ?_, ?_⟩
    · have := removed_similar_go_length_pos ratio threshold gs [] g
      intro hnil
      rw [hnil] at this
      simp at this
    · have := removed_similar_go_length_le ratio threshold gs [] g
      simp only [List.length_nil, List.length_cons] at this ⊢
      omega
    · intro x hx
      rcases removed_similar_go_mem ratio threshold gs [] g x hx with hc | hc | hc
      · simp at hc
      · simp [hc]
      · exact List.mem_cons_of_mem _ hc

/-- Concrete run of `removed_similar_selects_among_input` on a two-group
input with dissimilar texts. -/
theorem removed_similar_selects_among_input_witness :
    ([[(⟨[], "a", 1, 0⟩ : Subtitle)], [⟨[], "b", 1, 5⟩]] : List (List Subtitle)) ≠ [] ∧
    (∃ out, removed_similar sameTextRatio 70
        [[(⟨[], "a", 1, 0⟩ : Subtitle)], [⟨[], "b", 1, 5⟩]] = some out ∧ out ≠ [] ∧
      out.length ≤ ([[(⟨[], "a", 1, 0⟩ : Subtitle)], [⟨[], "b", 1, 5⟩]] : List (List Subtitle)).length ∧
      ∀ x ∈ out, x ∈ [[(⟨[], "a", 1, 0⟩ : Subtitle)], [⟨[], "b", 1, 5⟩]]) := by
  exact ⟨by decide, removed_similar_selects_among_input sameTextRatio 70
    [[⟨[], "a", 1, 0⟩], [⟨[], "b", 1, 5⟩]] (by decide)⟩

/-! ## C3 -/

/-- The scenario string splits into fields `1`, `02`, `03.5`, whose decimal
values are `1`, `2` and `7/2`. -/
theorem convert_example_parse :
    parseFloatFields (splitOnChar ':' "1:02:03.5".toList) = some [1, 2, 7 / 2] := by
  have hsplit : splitOnChar ':' "1:02:03.5".toList =
      [['1'], ['0', '2'], ['0', '3', '.', '5']] := by decide
  have hf1 : parseFloat? ['1'] = some 1 := by
    rw [parseFloat?, show splitOnChar '.' ['1'] = [['1']] from by decide]
    show (if ['1'] ≠ [] ∧ List.all ['1'] Char.isDigit = true then
      some ((decDigitsVal ['1'] : ℕ) : ℚ) else none) = some 1
    rw [if_pos (by decide), show decDigitsVal ['1'] = 1 from by decide]
    norm_num
  have hf2 : parseFloat? ['0', '2'] = some 2 := by
    rw [parseFloat?, show splitOnChar '.' ['0', '2'] = [['0', '2']] from by decide]
    show (if ['0', '2'] ≠ [] ∧ List.all ['0', '2'] Char.isDigit = true then
      some ((decDigitsVal ['0', '2'] : ℕ) : ℚ) else none) = some 2
    rw [if_pos (by decide), show decDigitsVal ['0', '2'] = 2 from by decide]
    norm_num
  have hf3 : parseFloat? ['0', '3', '.', '5'] = some (7 / 2) := by
    rw [parseFloat?,
      show splitOnChar '.' ['0', '3', '.', '5'] = [['0', '3'], ['5']] from by decide]
    show (if (['0', '3'] ≠ [] ∨ ['5'] ≠ []) ∧ List.all ['0', '3'] Char.isDigit = true ∧
        List.all ['5'] Char.isDigit = true then
      some ((decDigitsVal ['0', '3'] : ℕ) + ((decDigitsVal ['5'] : ℕ) : ℚ) /
        (10 : ℚ) ^ (['5'] : List Char).length) else none) = some (7 / 2)
    rw [if_pos (by decide), show decDigitsVal ['0', '3'] = 3 from by decide,
      show decDigitsVal ['5'] = 5 from by decide,
      show (['5'] : List Char).length = 1 from by decide]
    norm_num
  rw [hsplit]
  rw [parseFloatFields, hf1, parseFloatFields, hf2, parseFloatFields, hf3,
    parseFloatFields]
  rfl

/-- Evaluating the source on the spec's scenario input:
1h 2m 3.5s is 3723.5 seconds, times 25 is 93087.5, truncated 93087. -/
theorem convert_example_eval :
    convert_time_to_frame_idx "1:02:03.5" 25 = .ok 93087 := by
  have h93 : truncQ ((3600 * (1 : ℚ) + 60 * 2 + 7 / 2) * ((25 : ℤ) : ℚ)) = 93087 := by
    rw [truncQ_of_nonneg (by norm_num)]
    rw [show (3600 * (1 : ℚ) + 60 * 2 + 7 / 2) * ((25 : ℤ) : ℚ) =
      ((186175 : ℤ) : ℚ) / ((2 : ℕ) : ℚ) by push_cast; ring]
    rw [Rat.floor_intCast_div_natCast]
    norm_num
  rw [convert_time_to_frame_idx, if_neg (by decide), convert_example_parse]
  show Except.ok (truncQ ((3600 * (1 : ℚ) + 60 * 2 + 7 / 2) * ((25 : ℤ) : ℚ))) = _
  rw [h93]

/-- Counterexample to claim C3 as stated: on the spec's own scenario input
the source returns `93087` (`int(3723.5 * 25)`), not the claimed `93838`. -/
theorem convert_time_scenario_cex :
    convert_time_to_frame_idx "1:02:03.5" 25 = .ok 93087 ∧
    (Except.ok (93087 : ℤ) : Except String ℤ) ≠ .ok 93838 := by
  refine ⟨convert_example_eval, fun h => ?_⟩
  have := Except.ok.inj h
  omega

/-- Claim C3 amended: a 2- or 3-field colon-separated time string is turned
into `int(total_seconds * fps)` — total seconds times fps, truncated toward
zero — and in particular `parse_time("1:02:03.5", fps=25)` returns `93087`
(not the spec's `93838`). -/
theorem convert_time_truncates (fps : ℤ) :
    (∀ (str : String) (h m s : ℚ), str ≠ "" →
      parseFloatFields (splitOnChar ':' str.toList) = some [h, m, s] →
      convert_time_to_frame_idx str fps =
        .ok (truncQ ((3600 * h + 60 * m + s) * (fps : ℚ)))) ∧
    (∀ (str : String) (m s : ℚ), str ≠ "" →
      parseFloatFields (splitOnChar ':' str.toList) = some [m, s] →
      convert_time_to_frame_idx str fps =
        .ok (truncQ ((60 * m + s) * (fps : ℚ)))) ∧
    convert_time_to_frame_idx "1:02:03.5" 25 = .ok 93087 := by
  refine ⟨?_, ?_, convert_example_eval⟩
  · intro str h m s hne hp
    rw [convert_time_to_frame_idx, if_neg hne, hp]
  · intro str m s hne hp
    rw [convert_time_to_frame_idx, if_neg hne, hp]

/-- Concrete run of `convert_time_truncates` on the 3-field scenario
string. -/
theorem convert_time_truncates_witness :
    ("1:02:03.5" ≠ "") ∧
    parseFloatFields (splitOnChar ':' "1:02:03.5".toList) = some [1, 2, 7 / 2] ∧
    convert_time_to_frame_idx "1:02:03.5" 25 =
      .ok (truncQ ((3600 * 1 + 60 * 2 + 7 / 2) * ((25 : ℤ) : ℚ))) := by
  exact ⟨by decide, convert_example_parse,
    (convert_time_truncates 25).1 "1:02:03.5" 1 2 (7 / 2) (by decide)
      convert_example_parse⟩

/-! ## C2 -/

/-- When every group is non-empty, the `frame_idxes` comprehension succeeds
and returns exactly the first frame index of each group. -/
theorem firstIdxes_eq_map :
    ∀ (groups : List (List Subtitle)), (∀ g ∈ groups, g ≠ []) →
      firstIdxes groups = some (groups.map headFrameIdx) := by
  intro groups
  induction groups with
  | nil => intro _; rfl
  | cons g gs ih =>
    intro h
    cases g with
    | nil => exact absurd rfl (h [] (List.mem_cons_self _ _))
    | cons x xs =>
      rw [firstIdxes]
      show (firstIdxes gs).map (fun r => x.frame_idx :: r) = _
      rw [ih (fun g' hg' => h g' (List.mem_cons_of_mem _ hg'))]
      rfl

/-- The source's cue builder agrees with the spec's formula once the cue's
own first frame index is passed for `fcur`: the source computes the end
bound as `(frame_idx + alive) / origin_fps` with `alive = fnext - fcur`,
which is the spec's `f_next / origin_fps`. -/
theorem mkFormatter_eq_specCue (ofps : ℚ) (max_show : ℤ) (g : List Subtitle)
    (fnext : ℤ) :
    mkFormatter ofps max_show g (headFrameIdx g) fnext =
      specCue ofps max_show g (headFrameIdx g) fnext := by
  have h : headFrameIdx g + (fnext - headFrameIdx g) = fnext := by ring
  simp only [mkFormatter, specCue, h]

/-- The zip-with-boundaries construction of `to_formatter` produces exactly
the cue list described by the spec's timing formula. -/
theorem zip_formatter_eq_spec (fps : ℤ) (ofps : ℚ) (max_show : ℤ) :
    ∀ groups : List (List Subtitle), groups ≠ [] →
      ((groups.zip ((groups.map headFrameIdx).zip
          ((groups.map headFrameIdx).tail ++
            [(groups.map headFrameIdx).getLastD 0 + max_show * fps]))).map
        (fun gp => mkFormatter ofps max_show gp.1 gp.2.1 gp.2.2)) =
      specTimedCues fps ofps max_show groups := by
  intro groups
  induction groups with
  | nil => intro h; exact absurd rfl h
  | cons g gs ih =>
    intro _
    cases gs with
    | nil =>
      simp [specTimedCues, mkFormatter_eq_specCue]
    | cons g2 gs2 =>
      have ihh := ih (by simp)
      simp only [List.map_cons, List.tail_cons, List.getLastD_cons,
        List.cons_append, List.zip_cons_cons] at ihh ⊢
      rw [ihh]
      show mkFormatter ofps max_show g (headFrameIdx g) (headFrameIdx g2) ::
          specTimedCues fps ofps max_show (g2 :: gs2) =
        specCue ofps max_show g (headFrameIdx g) (headFrameIdx g2) ::
          specTimedCues fps ofps max_show (g2 :: gs2)
      rw [mkFormatter_eq_specCue]

/-- Claim C2: on a non-empty consolidated sequence of non-empty groups the
timing formatter returns, for each group `i` with first frame index `f_i`,
the cue with `start_i = f_i / origin_fps`,
`end_i = min(start_i + max_show_seconds, f_{i+1} / origin_fps)` — the last
cue bounded by the synthetic `f_{N-1} + max_show_seconds * fps` — and the
space-joined texts of the group as content, exactly as `specTimedCues`
transcribes the spec. -/
theorem to_formatter_matches_spec (fps : ℤ) (origin_fps : ℚ) (max_show : ℤ)
    (groups : List (List Subtitle)) (hne : groups ≠ [])
    (hall : ∀ g ∈ groups, g ≠ []) :
    to_formatter fps origin_fps max_show groups =
      .ok (specTimedCues fps origin_fps max_show groups) := by
  rw [to_formatter, if_neg hne, firstIdxes_eq_map groups hall]
  exact congrArg Except.ok (zip_formatter_eq_spec fps origin_fps max_show groups hne)

/-- Concrete run of `to_formatter_matches_spec` on two one-detection groups
at frames 0 and 40 with `fps = origin_fps = 10`, `max_show = 10`. -/
theorem to_formatter_matches_spec_witness :
    ([[(⟨[], "Hi there", 1, 0⟩ : Subtitle)], [⟨[], "Bye", 1, 40⟩]] :
      List (List Subtitle)) ≠ [] ∧
    (∀ g ∈ ([[(⟨[], "Hi there", 1, 0⟩ : Subtitle)], [⟨[], "Bye", 1, 40⟩]] :
      List (List Subtitle)), g ≠ []) ∧
    to_formatter 10 10 10 [[(⟨[], "Hi there", 1, 0⟩ : Subtitle)], [⟨[], "Bye", 1, 40⟩]] =
      .ok (specTimedCues 10 10 10
        [[(⟨[], "Hi there", 1, 0⟩ : Subtitle)], [⟨[], "Bye", 1, 40⟩]]) := by
  exact ⟨by decide, by decide, to_formatter_matches_spec 10 10 10
    [[⟨[], "Hi there", 1, 0⟩], [⟨[], "Bye", 1, 40⟩]] (by decide) (by decide)⟩

/-! ## C8 -/

/-- Closed form of the timestamp formatter: minutes are `⌊t/60⌋`, seconds
the floor of the remainder, and the centisecond field is the truncation
`⌊100t⌋ - 100⌊t⌋` (no rounding), each zero-padded to two digits. -/
theorem time_formatter_eq (t : ℚ) :
    time_formatter t =
      pad2 ⌊t / 60⌋ ++ ":" ++ pad2 (⌊t⌋ - 60 * ⌊t / 60⌋) ++ "." ++
        pad2 (⌊100 * t⌋ - 100 * ⌊t⌋) := by
  have hm : floorQ (t / 60) = ⌊t / 60⌋ := floorQ_eq _
  have hsec_nonneg : (0 : ℚ) ≤ t - 60 * ((⌊t / 60⌋ : ℤ) : ℚ) := by
    have h1 : ((⌊t / 60⌋ : ℤ) : ℚ) ≤ t / 60 := Int.floor_le (t / 60)
    linarith
  have hs : truncQ (t - 60 * ((⌊t / 60⌋ : ℤ) : ℚ)) = ⌊t⌋ - 60 * ⌊t / 60⌋ := by
    rw [truncQ_of_nonneg hsec_nonneg]
    rw [show t - 60 * ((⌊t / 60⌋ : ℤ) : ℚ) = t - ((60 * ⌊t / 60⌋ : ℤ) : ℚ) by
      push_cast; ring]
    rw [Int.floor_sub_int]
  have hms_nonneg : (0 : ℚ) ≤
      (t - 60 * ((⌊t / 60⌋ : ℤ) : ℚ) - ((⌊t⌋ - 60 * ⌊t / 60⌋ : ℤ) : ℚ)) * 100 := by
    have h1 : ((⌊t⌋ : ℤ) : ℚ) ≤ t := Int.floor_le t
    push_cast
    linarith
  have hms : truncQ
      ((t - 60 * ((⌊t / 60⌋ : ℤ) : ℚ) - ((⌊t⌋ - 60 * ⌊t / 60⌋ : ℤ) : ℚ)) * 100) =
      ⌊100 * t⌋ - 100 * ⌊t⌋ := by
    rw [truncQ_of_nonneg hms_nonneg]
    rw [show (t - 60 * ((⌊t / 60⌋ : ℤ) : ℚ) - ((⌊t⌋ - 60 * ⌊t / 60⌋ : ℤ) : ℚ)) * 100 =
      100 * t - ((100 * ⌊t⌋ : ℤ) : ℚ) by push_cast; ring]
    rw [Int.floor_sub_int]
  simp only [time_formatter]
  rw [hm, hs, hms]

/-- Claim C8: the lyric-layout content renders each cue as the line
`[MM:SS.CC]<content>` followed by the line `[MM:SS.CC]`, cues joined by a
single newline, with minutes `⌊t/60⌋`, seconds the floored remainder and
centiseconds truncated (not rounded), each zero-padded to two digits. -/
theorem lrc_file_content_layout (formatters : List SubtitleFormatter) :
    lrc_file_content formatters =
      joinStrings "\n" (formatters.map (fun f =>
        "[" ++ (pad2 ⌊f.start_time / 60⌋ ++ ":" ++
            pad2 (⌊f.start_time⌋ - 60 * ⌊f.start_time / 60⌋) ++ "." ++
            pad2 (⌊100 * f.start_time⌋ - 100 * ⌊f.start_time⌋)) ++ "]" ++
          f.content ++ "\n[" ++
          (pad2 ⌊f.end_time / 60⌋ ++ ":" ++
            pad2 (⌊f.end_time⌋ - 60 * ⌊f.end_time / 60⌋) ++ "." ++
            pad2 (⌊100 * f.end_time⌋ - 100 * ⌊f.end_time⌋)) ++ "]")) := by
  rw [lrc_file_content]
  congr 1
  apply List.map_congr_left
  intro f _
  rw [lrc, time_formatter_eq, time_formatter_eq]

/-! ## C10 -/

/-- The head of `dropWhile p` never satisfies `p`. -/
theorem head_dropWhile_not (p : Char → Bool) :
    ∀ (l : List Char) (a : Char), (l.dropWhile p).head? = some a → p a = false := by
  intro l
  induction l with
  | nil => intro a h; simp [List.dropWhile] at h
  | cons x xs ih =>
    intro a h
    rw [List.dropWhile_cons] at h
    cases hpx : p x with
    | true =>
      rw [hpx, if_pos rfl] at h
      exact ih a h
    | false =>
      rw [hpx] at h
      simp at h
      rcases h with ⟨rfl, -⟩
      exact hpx

/-- `dropWhile` only removes a prefix: a non-empty result keeps the last
element of the original list. -/
theorem getLast_dropWhile (p : Char → Bool) :
    ∀ l : List Char, l.dropWhile p ≠ [] →
      (l.dropWhile p).getLast? = l.getLast? := by
  intro l
  induction l with
  | nil => intro h; simp [List.dropWhile] at h
  | cons x xs ih =>
    intro h
    rw [List.dropWhile_cons] at h ⊢
    cases hpx : p x with
    | true =>
      rw [hpx, if_pos rfl] at h
      rw [if_pos rfl]
      have hxs : xs ≠ [] := by
        intro hh
        rw [hh] at h
        simp [List.dropWhile] at h
      rw [ih h]
      cases xs with
      | nil => exact absurd rfl hxs
      | cons y ys => rw [List.getLast?_cons_cons]
    | false =>
      simp

/-- A member failing the predicate survives `dropWhile p`. -/
theorem mem_dropWhile_of_mem (p : Char → Bool) :
    ∀ (l : List Char) (a : Char), a ∈ l → p a = false → a ∈ l.dropWhile p := by
  intro l
  induction l with
  | nil => intro a ha _; simp at ha
  | cons x xs ih =>
    intro a ha hp
    rw [List.dropWhile_cons]
    cases hpx : p x with
    | true =>
      rw [if_pos rfl]
      rcases List.mem_cons.1 ha with rfl | hmem
      · rw [hp] at hpx
        exact absurd hpx (by simp)
      · exact ih a hmem hp
    | false =>
      simp only [Bool.false_eq_true, if_false]
      exact ha

/-- The first character of a stripped list is not whitespace. -/
theorem stripList_head_not_space (l : List Char) (a : Char)
    (h : (stripList l).head? = some a) : a.isWhitespace = false := by
  rw [stripList, List.head?_reverse] at h
  have hne : ((l.dropWhile Char.isWhitespace).reverse.dropWhile Char.isWhitespace) ≠ [] := by
    intro hh
    rw [hh] at h
    simp at h
  rw [getLast_dropWhile _ _ hne, List.getLast?_reverse] at h
  exact head_dropWhile_not _ _ _ h

/-- The last character of a stripped list is not whitespace. -/
theorem stripList_getLast_not_space (l : List Char) (a : Char)
    (h : (stripList l).getLast? = some a) : a.isWhitespace = false := by
  rw [stripList, List.getLast?_reverse] at h
  exact head_dropWhile_not _ _ _ h

/-- Stripping only removes characters. -/
theorem mem_of_mem_stripList (l : List Char) (a : Char) (h : a ∈ stripList l) :
    a ∈ l := by
  rw [stripList, List.mem_reverse] at h
  have h1 : a ∈ (l.dropWhile Char.isWhitespace).reverse :=
    (List.dropWhile_sublist _).subset h
  rw [List.mem_reverse] at h1
  exact (List.dropWhile_sublist _).subset h1

/-- A non-whitespace character is never stripped. -/
theorem mem_stripList_of_mem (l : List Char) (a : Char) (ha : a ∈ l)
    (hp : a.isWhitespace = false) : a ∈ stripList l := by
  rw [stripList, List.mem_reverse]
  apply mem_dropWhile_of_mem _ _ _ _ hp
  rw [List.mem_reverse]
  exact mem_dropWhile_of_mem _ _ _ ha hp

/-- Every character surviving the translation table is outside the deletion
set and is not `'|'`. -/
theorem mem_pyTranslate (s : String) (c : Char)
    (h : c ∈ (pyTranslate s).toList) : c ∉ deleteChars ∧ c ≠ '|' := by
  have h' : c ∈ s.toList.filterMap translateTable := h
  rw [List.mem_filterMap] at h'
  obtain ⟨b, -, htb⟩ := h'
  rw [translateTable] at htb
  by_cases hdel : b ∈ deleteChars
  · rw [if_pos hdel] at htb
    simp at htb
  · rw [if_neg hdel] at htb
    by_cases hpipe : b = '|'
    · rw [if_pos hpipe] at htb
      obtain rfl := Option.some.inj htb
      exact ⟨by decide, by decide⟩
    · rw [if_neg hpipe] at htb
      obtain rfl := Option.some.inj htb
      exact ⟨hdel, hpipe⟩

/-- The translation really substitutes: a `'|'` in the input puts an `'I'`
in the translated output. -/
theorem pipe_to_I (s : String) (h : '|' ∈ s.toList) :
    'I' ∈ (pyTranslate s).toList := by
  show 'I' ∈ s.toList.filterMap translateTable
  rw [List.mem_filterMap]
  exact ⟨'|', h, by decide⟩

/-- The cleanup `translate(table).strip()` leaves no deleted character, no
`'|'` and no whitespace at either end, and keeps the `'I'` substituted for
any `'|'`. -/
theorem cleanOcrText_props (s : String) :
    (∀ c ∈ (cleanOcrText s).toList, c ∉ deleteChars ∧ c ≠ '|') ∧
    (∀ a, (cleanOcrText s).toList.head? = some a → a.isWhitespace = false) ∧
    (∀ a, (cleanOcrText s).toList.getLast? = some a → a.isWhitespace = false) ∧
    ('|' ∈ s.toList → 'I' ∈ (cleanOcrText s).toList) := by
  have htl : (cleanOcrText s).toList = stripList (pyTranslate s).toList := rfl
  refine ⟨?_, ?_, ?_, ?_⟩
  · intro c hc
    rw [htl] at hc
    exact mem_pyTranslate _ _ (mem_of_mem_stripList _ _ hc)
  · intro a ha
    rw [htl] at ha
    exact stripList_head_not_space _ _ ha
  · intro a ha
    rw [htl] at ha
    exact stripList_getLast_not_space _ _ ha
  · intro hp
    rw [htl]
    exact mem_stripList_of_mem _ _ (pipe_to_I s hp) (by decide)

/-- Claim C10: every `Subtitle` built by the OCR step carries a text with
every `'|'` replaced by `'I'` (so an input `'|'` yields an `'I'` and none
remains), none of the table's deleted characters, and no leading or
trailing whitespace. -/
theorem ocr_text_sanitized (frame_idx : ℤ)
    (raw : List (List (List ℤ) × String × ℚ)) (sub : Subtitle)
    (hmem : sub ∈ ocrSubtitles frame_idx raw) :
    (∀ c ∈ sub.text.toList, c ∉ deleteChars ∧ c ≠ '|') ∧
    (∀ a, sub.text.toList.head? = some a → a.isWhitespace = false) ∧
    (∀ a, sub.text.toList.getLast? = some a → a.isWhitespace = false) ∧
    (∃ r ∈ raw, sub.text = cleanOcrText r.2.1 ∧
      ('|' ∈ r.2.1.toList → 'I' ∈ sub.text.toList)) := by
  rw [ocrSubtitles, List.mem_map] at hmem
  obtain ⟨r, hr, rfl⟩ := hmem
  obtain ⟨h1, h2, h3, h4⟩ := cleanOcrText_props r.2.1
  exact ⟨h1, h2, h3, r, hr, rfl, h4⟩

/-- Concrete run of `ocr_text_sanitized` on the raw OCR text `" |a* "`. -/
theorem ocr_text_sanitized_witness :
    ((⟨[], cleanOcrText " |a* ", 1, 0⟩ : Subtitle) ∈
      ocrSubtitles 0 [([], " |a* ", 1)]) ∧
    (∀ c ∈ (cleanOcrText " |a* ").toList, c ∉ deleteChars ∧ c ≠ '|') ∧
    (∀ a, (cleanOcrText " |a* ").toList.head? = some a →
      a.isWhitespace = false) ∧
    (∀ a, (cleanOcrText " |a* ").toList.getLast? = some a →
      a.isWhitespace = false) ∧
    (∃ r ∈ [(([] : List (List ℤ)), " |a* ", (1 : ℚ))],
      cleanOcrText " |a* " = cleanOcrText r.2.1 ∧
      ('|' ∈ r.2.1.toList → 'I' ∈ (cleanOcrText " |a* ").toList)) := by
  have hmem : (⟨[], cleanOcrText " |a* ", 1, 0⟩ : Subtitle) ∈
      ocrSubtitles 0 [([], " |a* ", 1)] := by
    rw [ocrSubtitles]
    exact List.mem_singleton.2 rfl
  exact ⟨hmem, ocr_text_sanitized 0 [([], " |a* ", 1)] _ hmem⟩
